import Mathlib

/-! Verification of the schedule-evaluation logic, the fluent builder and the
run loop of the Go package `scheduler` (file `scheduler.go`), as a shallow
embedding.

Modelling conventions:
* A Go `time.Duration` is int64 nanoseconds.  Duration values are modelled as
  unbounded `Int`; two's-complement wraparound (`wrap64`) is applied exactly
  where the Go code performs an int64 multiplication that can overflow
  (`recurrent.nextRun`), and int64 saturation (`durSub`) where Go's
  `time.Time.Sub` documents clamping.
* A `time.Time` instant is `Int` nanoseconds relative to a reference local
  midnight.  The host's local zone is modelled as a fixed-offset zone (the
  spec lists DST and timezone awareness beyond the host zone as non-goals),
  so `time.Date(y, m, d+k, h, mi, s, 0, time.Local)` with
  `(y, m, d) = now.Date()` denotes
  `floorToDay now + k*nsPerDay + h*nsPerHour + mi*nsPerMinute + s*nsPerSecond`,
  by Go's documented normalization of out-of-range day values.
* The reference midnight is taken to fall on a Thursday (`time.Weekday` 4),
  as the Unix epoch does, so `now.Weekday()` is `(4 + dayNumber now) % 7`.
  `/` and `%` on `Int` are Euclidean, hence flooring for positive divisors,
  matching calendar day arithmetic for instants before the epoch as well.
* Go strings are `List Char`.
-/

/-- Go `time.Second` in nanoseconds. -/
def nsPerSecond : Int := 1000000000

/-- Go `time.Minute` in nanoseconds. -/
def nsPerMinute : Int := 60000000000

/-- Go `time.Hour` in nanoseconds. -/
def nsPerHour : Int := 3600000000000

/-- One calendar day in nanoseconds (fixed-offset local zone). -/
def nsPerDay : Int := 86400000000000

/-- Largest int64 value. -/
def int64Max : Int := 9223372036854775807

/-- Smallest int64 value. -/
def int64Min : Int := -9223372036854775808

/-- Two's-complement wraparound of Go int64 arithmetic. -/
def wrap64 (x : Int) : Int :=
  (x + 9223372036854775808) % 18446744073709551616 - 9223372036854775808

/-- Go `time.Time.Sub` semantics: the nanosecond difference of two instants,
saturated at the int64 bounds. -/
def durSub (t u : Int) : Int :=
  if t - u < int64Min then int64Min
  else if int64Max < t - u then int64Max
  else t - u

/-- Go `type recurrent struct { units, period time.Duration }`. -/
structure recurrent where
  units : Int
  period : Int
  deriving DecidableEq

/-- Go `func (r recurrent) nextRun() (time.Duration, error)`: error on a zero
field, otherwise the int64 product of the two fields.  The result is the
returned pair, with the error as an optional message. -/
def recurrent.nextRun (r : recurrent) : Int × Option String :=
  if r.units = 0 ∨ r.period = 0 then (0, some "Cannot schedule with 0 time")
  else (wrap64 (r.units * r.period), none)

/-- Go `type daily struct { hour, min, sec int }`. -/
structure daily where
  hour : Int
  min : Int
  sec : Int
  deriving DecidableEq

/-- Calendar day index of an instant (Euclidean division floors). -/
def dayNumber (now : Int) : Int := now / nsPerDay

/-- The local midnight starting the day that contains `now`; stands for the
`(year, month, day)` triple returned by `now.Date()`. -/
def floorToDay (now : Int) : Int := dayNumber now * nsPerDay

/-- Go `now.Weekday()`: the reference midnight is a Thursday (weekday 4). -/
def weekdayOf (now : Int) : Int := (4 + dayNumber now) % 7

/-- Nanoseconds from a local midnight to the configured time of day. -/
def daily.timeOfDayNs (d : daily) : Int :=
  d.hour * nsPerHour + d.min * nsPerMinute + d.sec * nsPerSecond

/-- Go `func (d daily) nextRun() (time.Duration, error)`.  `now` is the value
of the `time.Now()` call made inside the function; the first branch is taken
when today's date at the configured time of day is still strictly in the
future (`now.Before(date)`), otherwise the same time of day tomorrow
(`day+1`) is used.  The error result is always nil. -/
def daily.nextRun (d : daily) (now : Int) : Int × Option String :=
  if now < floorToDay now + d.timeOfDayNs then
    (durSub (floorToDay now + d.timeOfDayNs) now, none)
  else
    (durSub (floorToDay now + nsPerDay + d.timeOfDayNs) now, none)

/-- Go `type weekly struct { day time.Weekday; d daily }`. -/
structure weekly where
  day : Int
  d : daily
  deriving DecidableEq

/-- Go `func (w weekly) nextRun() (time.Duration, error)`.  `numDays` is
`w.day - now.Weekday()`; when it is zero and today's occurrence is not in
the future any more it becomes 7, when it is negative 7 is added; the result
is the difference to the date `numDays` days ahead at the configured time of
day.  The error result is always nil. -/
def weekly.nextRun (w : weekly) (now : Int) : Int × Option String :=
  if w.day - weekdayOf now = 0 then
    if now < floorToDay now + w.d.timeOfDayNs then
      (durSub (floorToDay now + w.d.timeOfDayNs) now, none)
    else
      (durSub (floorToDay now + 7 * nsPerDay + w.d.timeOfDayNs) now, none)
  else
    if w.day - weekdayOf now < 0 then
      (durSub (floorToDay now + (w.day - weekdayOf now + 7) * nsPerDay + w.d.timeOfDayNs) now, none)
    else
      (durSub (floorToDay now + (w.day - weekdayOf now) * nsPerDay + w.d.timeOfDayNs) now, none)

/-- The Go `scheduled` interface: one of the three schedule kinds. -/
inductive Schedule where
  | ofRecurrent (r : recurrent)
  | ofDaily (d : daily)
  | ofWeekly (w : weekly)
  deriving DecidableEq

/-- Dynamic dispatch of the `scheduled` interface.  The recurrent kind never
reads the clock. -/
def Schedule.nextRun : Schedule → Int → Int × Option String
  | .ofRecurrent r, _ => r.nextRun
  | .ofDaily d, now => d.nextRun now
  | .ofWeekly w, now => w.nextRun now

-- Helper lemmas about the calendar arithmetic.

theorem floorToDay_le (now : Int) : floorToDay now ≤ now := by
  unfold floorToDay dayNumber nsPerDay
  omega

theorem lt_floorToDay_add (now : Int) : now < floorToDay now + nsPerDay := by
  unfold floorToDay dayNumber nsPerDay
  omega

theorem weekdayOf_bounds (now : Int) : 0 ≤ weekdayOf now ∧ weekdayOf now < 7 := by
  unfold weekdayOf dayNumber nsPerDay
  omega

theorem wrap64_eq_self {x : Int} (h1 : int64Min ≤ x) (h2 : x ≤ int64Max) :
    wrap64 x = x := by
  unfold int64Min at h1
  unfold int64Max at h2
  unfold wrap64
  omega

theorem durSub_eq {t u : Int} (h1 : int64Min ≤ t - u) (h2 : t - u ≤ int64Max) :
    durSub t u = t - u := by
  unfold int64Min at h1
  unfold int64Max at h2
  unfold durSub int64Min int64Max
  split_ifs with ha hb
  · omega
  · omega
  · rfl

/-- One call of `nextRun` through the interface: Go value receivers leave the
receiver unchanged and the package keeps no mutable global state, so a call
returns the schedule value unchanged next to its result. -/
def nextRunCall (s : Schedule) (now : Int) : Schedule × (Int × Option String) :=
  (s, s.nextRun now)

/-- `k` successive `nextRun` calls at a frozen clock value, threading the
schedule value from call to call. -/
def callSeq : Schedule → Int → Nat → List (Int × Option String)
  | _, _, 0 => []
  | s, now, Nat.succ k =>
    (nextRunCall s now).2 :: callSeq (nextRunCall s now).1 now k

/-- State of one Go channel of element type bool as the signal channels use
it: whether the channel has been made (a nil channel otherwise) and whether
a value is currently buffered for the single waiting receiver. -/
structure ChannelState where
  allocated : Bool
  ready : Bool
  deriving DecidableEq

/-- Go `type Job struct`: the builder-visible schedule and error fields plus
the two exported signal channels (`Quit`, `SkipWait`).  The callback field
`fn` carries no information the claims need and is omitted. -/
structure Job where
  quit : ChannelState
  skipWait : ChannelState
  err : Option String
  schedule : Option Schedule
  deriving DecidableEq

/-- Go `func Every(times ...time.Duration) *Job`: a fresh Job has the zero
value for both channels (nil), no error, and either no schedule, a recurrent
schedule with only `units` set, or an error for more than one argument. -/
def Every (times : List Int) : Job :=
  match times with
  | [] =>
    { quit := ⟨false, false⟩, skipWait := ⟨false, false⟩, err := none, schedule := none }
  | [t] =>
    { quit := ⟨false, false⟩, skipWait := ⟨false, false⟩, err := none,
      schedule := some (.ofRecurrent { units := t, period := 0 }) }
  | _ =>
    { quit := ⟨false, false⟩, skipWait := ⟨false, false⟩,
      err := some "Too many arguments in Every", schedule := none }

/-- Go `func (j *Job) dayOfWeek(d time.Weekday) *Job`: when a schedule is
already set the error field is overwritten with the chaining error; the
schedule is then set to `weekly{day: time.Monday}` — the source ignores the
argument `d` and always stores Monday (weekday 1) with a zero daily value. -/
def Job.dayOfWeek (j : Job) (d : Int) : Job :=
  { j with
    err := if j.schedule.isSome then some "Bad function chaining" else j.err,
    schedule := some (.ofWeekly { day := 1, d := { hour := 0, min := 0, sec := 0 } }) }

/-- Go `func (j *Job) Monday() *Job`. -/
def Job.monday (j : Job) : Job := j.dayOfWeek 1

/-- Go `func (j *Job) Tuesday() *Job`. -/
def Job.tuesday (j : Job) : Job := j.dayOfWeek 2

/-- Go `func (j *Job) Wednesday() *Job`. -/
def Job.wednesday (j : Job) : Job := j.dayOfWeek 3

/-- Go `func (j *Job) Thursday() *Job`. -/
def Job.thursday (j : Job) : Job := j.dayOfWeek 4

/-- Go `func (j *Job) Friday() *Job`. -/
def Job.friday (j : Job) : Job := j.dayOfWeek 5

/-- Go `func (j *Job) Saturday() *Job`. -/
def Job.saturday (j : Job) : Job := j.dayOfWeek 6

/-- Go `func (j *Job) Sunday() *Job`. -/
def Job.sunday (j : Job) : Job := j.dayOfWeek 0

/-- Go `func (j *Job) Day() *Job`. -/
def Job.day (j : Job) : Job :=
  { j with
    err := if j.schedule.isSome then some "Bad function chaining" else j.err,
    schedule := some (.ofDaily { hour := 0, min := 0, sec := 0 }) }

/-- Go `func (j *Job) timeOfDay(d time.Duration) *Job`: after the error check
the source performs the bare type assertion `j.schedule.(recurrent)`; when
the schedule is not a recurrent value (or the interface is nil) that
assertion panics, modelled as `none`. -/
def Job.timeOfDay (j : Job) (d : Int) : Option Job :=
  if j.err.isSome then some j
  else
    match j.schedule with
    | some (.ofRecurrent r) => some { j with schedule := some (.ofRecurrent { r with period := d }) }
    | _ => none

/-- Go `func (j *Job) Seconds() *Job`. -/
def Job.seconds (j : Job) : Option Job := j.timeOfDay nsPerSecond

/-- Go `func (j *Job) Minutes() *Job`. -/
def Job.minutes (j : Job) : Option Job := j.timeOfDay nsPerMinute

/-- Go `func (j *Job) Hours() *Job`. -/
def Job.hours (j : Job) : Option Job := j.timeOfDay nsPerHour

/-- Go `strings.Split(str, ":")`. -/
def splitOnColon : List Char → List (List Char)
  | [] => [[]]
  | c :: rest =>
    match splitOnColon rest with
    | [] => [[c]]
    | chunk :: chunks =>
      if c = ':' then [] :: chunk :: chunks else (c :: chunk) :: chunks

/-- Decimal digit run folded to its value; `none` when a non-digit occurs. -/
def digitsValAux : List Char → Nat → Option Nat
  | [], acc => some acc
  | c :: rest, acc =>
    if '0' ≤ c ∧ c ≤ '9' then digitsValAux rest (acc * 10 + (c.toNat - 48))
    else none

/-- Value of a nonempty all-digit string; `none` otherwise. -/
def digitsVal (cs : List Char) : Option Nat :=
  match cs with
  | [] => none
  | _ => digitsValAux cs 0

/-- Largest uint64 value, the `maxVal` of Go `strconv.ParseUint(s, 10, 64)`. -/
def maxUint64 : Nat := 18446744073709551615

/-- Go ParseUint's per-digit overflow cutoff for base 10: maxVal/10 + 1; an
accumulator at or above it would overflow when multiplied by the base. -/
def uintCutoff : Nat := 1844674407370955162

/-- Outcome of Go ParseUint's digit scan: stopped at an invalid character
(ErrSyntax, value 0), stopped at the overflow cutoff (ErrRange, value
maxVal), or completed with the accumulated value. -/
inductive ScanResult where
  | invalidChar
  | outOfRange
  | value (n : Nat)
  deriving DecidableEq

/-- The digit loop of Go `strconv.ParseUint(s, 10, 64)`, scanning left to
right with accumulator `acc`.  Per character, in the source's order: a
non-digit returns ErrSyntax at once; then an accumulator already at or above
the cutoff returns ErrRange (the multiply by 10 would overflow); then a
folded value past maxUint64 returns ErrRange (the add would wrap); the scan
stops at the first exit, so a range exit can happen before a later invalid
character is ever looked at.  No exit is reachable while the accumulator is
still representable, so the unbounded accumulator is faithful. -/
def parseUintLoop : List Char → Nat → ScanResult
  | [], acc => .value acc
  | c :: rest, acc =>
    if '0' ≤ c ∧ c ≤ '9' then
      if uintCutoff ≤ acc then .outOfRange
      else if maxUint64 < acc * 10 + (c.toNat - 48) then .outOfRange
      else parseUintLoop rest (acc * 10 + (c.toNat - 48))
    else .invalidChar

/-- Go `strconv.ParseUint(s, 10, 64)`: the empty string (also a bare sign
after ParseInt strips it) is ErrSyntax; otherwise the digit scan runs. -/
def parseUint (cs : List Char) : ScanResult :=
  if cs = [] then .invalidChar else parseUintLoop cs 0

/-- The sign handling of Go `strconv.ParseInt`: the negative flag and the
remainder after one optional leading sign character. -/
def stripSign : List Char → Bool × List Char
  | '+' :: rest => (false, rest)
  | '-' :: rest => (true, rest)
  | cs => (false, cs)

/-- The signed-range step of Go `strconv.ParseInt` after the unsigned scan:
a range exit from the scan surfaces the saturated bound for the sign (the
scan's maxVal is at or above both signed cutoffs); a completed unsigned
value at or above 2^63 clamps to the int64 maximum, or for a leading minus
strictly above 2^63 clamps to the int64 minimum, else it is negated. -/
def signResult : Bool → ScanResult → Int × Bool
  | _, .invalidChar => (0, true)
  | true, .outOfRange => (int64Min, true)
  | false, .outOfRange => (int64Max, true)
  | true, .value n =>
    if 9223372036854775808 < n then (int64Min, true) else (-(n : Int), false)
  | false, .value n =>
    if 9223372036854775807 < n then (int64Max, true) else ((n : Int), false)

/-- Go `strconv.Atoi(s)`, which is `ParseInt(s, 10, 0)` with the platform int
of 64 bits: the pair of the returned value and whether an error is returned.
(Atoi's fast path for strings shorter than 19 characters cannot overflow and
agrees with this composition.) -/
def atoi (cs : List Char) : Int × Bool :=
  match stripSign cs with
  | (neg, s) => signResult neg (parseUint s)

/-- Go `func parseTime(str string) (hour, min, sec int)`: split on colons,
fill the named results positionally for 1, 2 or 3 chunks with the Atoi
errors discarded by the blank identifier; any other chunk count falls
through the switch and leaves all three results zero. -/
def parseTime (str : List Char) : Int × Int × Int :=
  match splitOnColon str with
  | [c0] => ((atoi c0).1, 0, 0)
  | [c0, c1] => ((atoi c0).1, (atoi c1).1, 0)
  | [c0, c1, c2] => ((atoi c0).1, (atoi c1).1, (atoi c2).1)
  | _ => (0, 0, 0)

/-- Meaning of a decimal segment independent of machine bounds: an optional
sign followed by one or more digits, with its unbounded integer value. -/
def decimalValue (cs : List Char) : Option Int :=
  match stripSign cs with
  | (true, s) => (digitsVal s).map (fun n : Nat => -(n : Int))
  | (false, s) => (digitsVal s).map (fun n : Nat => (n : Int))

/-- Unbounded value of the longest leading run of decimal digits. -/
def digitPrefixValAux : List Char → Nat → Nat
  | [], acc => acc
  | c :: rest, acc =>
    if '0' ≤ c ∧ c ≤ '9' then digitPrefixValAux rest (acc * 10 + (c.toNat - 48))
    else acc

/-- Unbounded value of the longest leading run of decimal digits. -/
def digitPrefixVal (cs : List Char) : Nat := digitPrefixValAux cs 0

/-- The three cases of the select statement in the run loop. -/
inductive SelectChoice where
  | quitCase
  | skipCase
  | timerCase
  deriving DecidableEq

/-- State of the run goroutine of one Job at the top of a loop iteration. -/
structure LoopCtx where
  sched : Schedule
  quitCh : ChannelState
  skipCh : ChannelState
  deriving DecidableEq

/-- Which select cases can proceed: a receive on a nil channel never can; a
receive on a made signal channel can when a value is buffered; the
`time.After(next)` case can once the computed duration elapses, which always
happens for a loop that keeps waiting.  When several cases can proceed, Go's
select picks one of them by uniform pseudo-random choice, so one loop step is
modelled against an arbitrarily chosen ready case. -/
def selectReady (ctx : LoopCtx) : SelectChoice → Bool
  | .quitCase => ctx.quitCh.allocated && ctx.quitCh.ready
  | .skipCase => ctx.skipCh.allocated && ctx.skipCh.ready
  | .timerCase => true

/-- What one iteration of the run loop did. -/
inductive IterResult where
  | stop
  | fireAndContinue
  deriving DecidableEq

/-- Whether the iteration launched the callback (`go j.fn()`). -/
def IterResult.fires : IterResult → Bool
  | .stop => false
  | .fireAndContinue => true

/-- One iteration of the `for` loop inside the goroutine of `Job.Run`:
evaluate `nextRun`; on an error, log and return without firing; otherwise
block in the select and act on the chosen case — receiving from `Quit`
returns at once without firing, receiving from `SkipWait` or the timer
launches the callback and re-enters the loop.  `none` means the offered case
was not ready, so the select could not choose it (not a legal step). -/
def loopIter (ctx : LoopCtx) (now : Int) (choice : SelectChoice) : Option IterResult :=
  match (ctx.sched.nextRun now).2 with
  | some _ => some .stop
  | none =>
    if selectReady ctx choice then
      match choice with
      | .quitCase => some .stop
      | .skipCase => some .fireAndContinue
      | .timerCase => some .fireAndContinue
    else none

/-- Go `func (j *Job) Run(f func()) (*Job, error)`: on a pending builder
error it returns `(nil, err)` and starts nothing (`none`).  Otherwise it
makes the buffered `Quit` channel, leaves `SkipWait` untouched — the source
never assigns that field, so it keeps the nil channel of the Job zero
value — and starts the loop goroutine.  `none` also stands for a Job without
a schedule, whose goroutine would panic calling `nextRun` on a nil
interface. -/
def Job.run (j : Job) : Option LoopCtx :=
  if j.err.isSome then none
  else
    match j.schedule with
    | some s =>
      some { sched := s, quitCh := { allocated := true, ready := false }, skipCh := j.skipWait }
    | none => none

/-- A caller's attempt to send on a signal channel: a send on a made buffered
channel deposits a value; a send on a nil channel blocks forever and never
deposits anything (and the exported receive-only channel type of the Job
fields rejects the send at compile time anyway). -/
def sendSignal (c : ChannelState) : ChannelState :=
  if c.allocated then { c with ready := true } else c

/-- `k` send attempts in a row. -/
def sendSignalN : Nat → ChannelState → ChannelState
  | 0, c => c
  | Nat.succ k, c => sendSignalN k (sendSignal c)

example : weekdayOf (4 * nsPerDay + 7 * nsPerHour) = 1 := by decide

example : floorToDay (8 * nsPerHour) = 0 := by decide

example : daily.nextRun ⟨8, 30, 0⟩ (8 * nsPerHour) = (30 * nsPerMinute, none) := by decide

example : daily.nextRun ⟨8, 30, 0⟩ (9 * nsPerHour) = (23 * nsPerHour + 30 * nsPerMinute, none) := by
  decide

example : weekly.nextRun ⟨1, ⟨8, 30, 0⟩⟩ (4 * nsPerDay + 7 * nsPerHour) =
    (nsPerHour + 30 * nsPerMinute, none) := by decide

/-- C1 counterexample: the Interval schedule built by
Every(10000000000).Seconds() has count 10000000000 > 0 and unit 1000000000 > 0,
yet nextRun returns the int64-wrapped product -8446744073709551616 with a nil
error, not the mathematical product 10^19. -/
theorem c1_interval_overflow_counterexample :
    (0 : Int) < (recurrent.mk 10000000000 1000000000).units ∧
    (0 : Int) < (recurrent.mk 10000000000 1000000000).period ∧
    (recurrent.mk 10000000000 1000000000).nextRun = (-8446744073709551616, none) ∧
    (recurrent.mk 10000000000 1000000000).nextRun.1 ≠
      (recurrent.mk 10000000000 1000000000).units *
        (recurrent.mk 10000000000 1000000000).period := by
  decide

/-- C1 (amended): for every Interval schedule with count > 0 and unit > 0,
nextRun succeeds (nil error) and its result is the same for every value of
now; the returned duration is exactly count times unit whenever that
mathematical product fits in int64 (in general it is the int64-wrapped
product). -/
theorem c1_interval_nextRun (r : recurrent) (hu : 0 < r.units) (hp : 0 < r.period) :
    (∀ now1 now2 : Int,
      Schedule.nextRun (.ofRecurrent r) now1 = Schedule.nextRun (.ofRecurrent r) now2) ∧
    r.nextRun.2 = none ∧
    (r.units * r.period ≤ int64Max → r.nextRun = (r.units * r.period, none)) := by
  have hne : ¬(r.units = 0 ∨ r.period = 0) := by omega
  refine ⟨fun now1 now2 => rfl, ?_, ?_⟩
  · simp [recurrent.nextRun, hne]
  · intro hle
    have h0 : 0 < r.units * r.period := mul_pos hu hp
    have hmin : int64Min ≤ r.units * r.period := by
      unfold int64Min
      linarith
    simp [recurrent.nextRun, hne, wrap64_eq_self hmin hle]

/-- C1 witness: count 5, unit one second gives exactly five seconds. -/
theorem c1_interval_nextRun_witness :
    (recurrent.mk 5 1000000000).nextRun = (5 * 1000000000, none) :=
  (c1_interval_nextRun (recurrent.mk 5 1000000000) (by norm_num) (by norm_num)).2.2
    (by unfold int64Max; norm_num)

/-- C2: Interval nextRun returns the invalid-schedule error exactly when
count or unit is zero; in the error case the returned duration is zero, and
a run-loop iteration over such a schedule stops without firing whatever
select case is offered. -/
theorem c2_interval_invalid (r : recurrent) :
    (r.nextRun.2.isSome ↔ (r.units = 0 ∨ r.period = 0)) ∧
    ((r.units = 0 ∨ r.period = 0) → r.nextRun = (0, some "Cannot schedule with 0 time")) ∧
    (∀ (qc sc : ChannelState) (now : Int) (choice : SelectChoice),
      (r.units = 0 ∨ r.period = 0) →
      loopIter { sched := .ofRecurrent r, quitCh := qc, skipCh := sc } now choice =
        some .stop) := by
  by_cases h : r.units = 0 ∨ r.period = 0
  · refine ⟨by simp [recurrent.nextRun, h], fun _ => by simp [recurrent.nextRun, h], ?_⟩
    intro qc sc now choice _
    simp [loopIter, Schedule.nextRun, recurrent.nextRun, h]
  · refine ⟨by simp [recurrent.nextRun, h], fun hc => absurd hc h, fun _ _ _ _ hc => absurd hc h⟩

/-- C2 witness: count zero errors with duration zero and the loop stops. -/
theorem c2_interval_invalid_witness :
    (recurrent.mk 0 5).nextRun = (0, some "Cannot schedule with 0 time") ∧
    loopIter { sched := .ofRecurrent (recurrent.mk 0 5), quitCh := ⟨true, true⟩,
               skipCh := ⟨false, false⟩ } 0 .timerCase = some .stop :=
  ⟨(c2_interval_invalid (recurrent.mk 0 5)).2.1 (Or.inl rfl),
   (c2_interval_invalid (recurrent.mk 0 5)).2.2 ⟨true, true⟩ ⟨false, false⟩ 0 .timerCase
     (Or.inl rfl)⟩

/-- C5: the internal dayOfWeek helper ignores its weekday argument, so the
seven weekday selectors applied to a fresh Job all produce the identical
weekly schedule whose weekday field is Monday (1). -/
theorem c5_all_selectors_monday :
    (∀ (j : Job) (d1 d2 : Int), j.dayOfWeek d1 = j.dayOfWeek d2) ∧
    (Every []).monday.schedule =
      some (.ofWeekly { day := 1, d := { hour := 0, min := 0, sec := 0 } }) ∧
    (Every []).tuesday = (Every []).monday ∧
    (Every []).wednesday = (Every []).monday ∧
    (Every []).thursday = (Every []).monday ∧
    (Every []).friday = (Every []).monday ∧
    (Every []).saturday = (Every []).monday ∧
    (Every []).sunday = (Every []).monday :=
  ⟨fun _ _ _ => rfl, rfl, rfl, rfl, rfl, rfl, rfl, rfl⟩

/-- C8: evaluation of the code at the failing inputs.  After Day() or a
weekday selector the schedule is daily resp. weekly while err is still nil,
so Seconds(), Minutes() or Hours() reach the bare type assertion
j.schedule.(recurrent) and panic (modelled none): no chaining error is
recorded on the Job; the program crashes instead. -/
theorem c8_unit_setter_after_day_panics :
    (Every []).day.err = none ∧
    (Every []).day.seconds = none ∧
    (Every []).day.minutes = none ∧
    (Every []).day.hours = none ∧
    (Every []).monday.err = none ∧
    (Every []).monday.seconds = none := by
  decide

/-- C9: nextRun is a pure function of the schedule value and the clock
reading: a call leaves the schedule value unchanged, and any number of
repeated calls at a frozen clock all return the very same
(duration, error) pair. -/
theorem c9_nextRun_pure :
    (∀ (s : Schedule) (now : Int), (nextRunCall s now).1 = s) ∧
    (∀ (s : Schedule) (now : Int) (k : Nat),
      callSeq s now k = List.replicate k (s.nextRun now)) := by
  refine ⟨fun s now => rfl, fun s now k => ?_⟩
  induction k with
  | zero => rfl
  | succ n ih => simp [callSeq, nextRunCall, List.replicate_succ, ih]

/-- C3: for a Daily schedule with in-range time-of-day fields and any
instant, when today's date at the configured time of day is strictly after
now, nextRun returns the difference to that instant; when now equals or is
past it, nextRun returns the difference to the same time of day tomorrow
(the exact tie rolls forward); the error is always nil and the duration is
strictly positive, never a zero immediate re-fire. -/
theorem c3_daily_nextRun (d : daily) (now : Int)
    (hh1 : 0 ≤ d.hour) (hh2 : d.hour ≤ 23)
    (hm1 : 0 ≤ d.min) (hm2 : d.min ≤ 59)
    (hs1 : 0 ≤ d.sec) (hs2 : d.sec ≤ 59) :
    (now < floorToDay now + d.timeOfDayNs →
      d.nextRun now = (floorToDay now + d.timeOfDayNs - now, none)) ∧
    (floorToDay now + d.timeOfDayNs ≤ now →
      d.nextRun now = (floorToDay now + nsPerDay + d.timeOfDayNs - now, none)) ∧
    (d.nextRun now).2 = none ∧
    0 < (d.nextRun now).1 := by
  have hf1 := floorToDay_le now
  have hf2 := lt_floorToDay_add now
  unfold daily.nextRun durSub daily.timeOfDayNs at *
  unfold nsPerDay nsPerHour nsPerMinute nsPerSecond int64Min int64Max at *
  refine ⟨fun h => ?_, fun h => ?_, ?_, ?_⟩ <;>
    split_ifs <;> simp_all <;> omega

/-- C3 witness: a Daily schedule at 08:30:00 with now at 08:00:00 the same
day returns 30 minutes, positively. -/
theorem c3_daily_nextRun_witness :
    daily.nextRun ⟨8, 30, 0⟩ (8 * nsPerHour) =
      (floorToDay (8 * nsPerHour) + daily.timeOfDayNs ⟨8, 30, 0⟩ - 8 * nsPerHour, none) ∧
    0 < (daily.nextRun ⟨8, 30, 0⟩ (8 * nsPerHour)).1 :=
  ⟨(c3_daily_nextRun ⟨8, 30, 0⟩ (8 * nsPerHour) (by norm_num) (by norm_num) (by norm_num)
      (by norm_num) (by norm_num) (by norm_num)).1 (by decide),
   (c3_daily_nextRun ⟨8, 30, 0⟩ (8 * nsPerHour) (by norm_num) (by norm_num) (by norm_num)
      (by norm_num) (by norm_num) (by norm_num)).2.2.2⟩

/-- C4: for a Weekly schedule with a weekday value in 0..6 and in-range
time-of-day fields and any instant now, nextRun never errors, the duration
is strictly positive and at most seven days; when today is the target
weekday and the configured time of day is already reached or past, the
result is the difference to the date seven days ahead; when the weekday
delta is negative it is normalized by adding seven days. -/
theorem c4_weekly_nextRun (w : weekly) (now : Int)
    (hd1 : 0 ≤ w.day) (hd2 : w.day ≤ 6)
    (hh1 : 0 ≤ w.d.hour) (hh2 : w.d.hour ≤ 23)
    (hm1 : 0 ≤ w.d.min) (hm2 : w.d.min ≤ 59)
    (hs1 : 0 ≤ w.d.sec) (hs2 : w.d.sec ≤ 59) :
    (w.nextRun now).2 = none ∧
    0 < (w.nextRun now).1 ∧
    (w.nextRun now).1 ≤ 7 * nsPerDay ∧
    (w.day = weekdayOf now → floorToDay now + w.d.timeOfDayNs ≤ now →
      (w.nextRun now).1 = floorToDay now + 7 * nsPerDay + w.d.timeOfDayNs - now) ∧
    (w.day - weekdayOf now < 0 →
      (w.nextRun now).1 =
        floorToDay now + (w.day - weekdayOf now + 7) * nsPerDay + w.d.timeOfDayNs - now) := by
  have hf1 := floorToDay_le now
  have hf2 := lt_floorToDay_add now
  obtain ⟨hw1, hw2⟩ := weekdayOf_bounds now
  unfold nsPerDay at hf2
  unfold weekly.nextRun durSub daily.timeOfDayNs
  unfold nsPerDay nsPerHour nsPerMinute nsPerSecond int64Min int64Max
  refine ⟨?_, ?_, ?_, fun h1 h2 => ?_, fun h => ?_⟩ <;>
    split_ifs <;> dsimp only <;> first | rfl | omega

/-- C4 witness: a Weekly schedule for Monday 08:30:00 evaluated on a Monday
at 09:00 advances to the same time seven days ahead, positively. -/
theorem c4_weekly_nextRun_witness :
    (weekly.nextRun ⟨1, ⟨8, 30, 0⟩⟩ (4 * nsPerDay + 9 * nsPerHour)).1 =
      floorToDay (4 * nsPerDay + 9 * nsPerHour) + 7 * nsPerDay +
        daily.timeOfDayNs ⟨8, 30, 0⟩ - (4 * nsPerDay + 9 * nsPerHour) ∧
    0 < (weekly.nextRun ⟨1, ⟨8, 30, 0⟩⟩ (4 * nsPerDay + 9 * nsPerHour)).1 :=
  ⟨(c4_weekly_nextRun ⟨1, ⟨8, 30, 0⟩⟩ (4 * nsPerDay + 9 * nsPerHour) (by norm_num) (by norm_num)
      (by norm_num) (by norm_num) (by norm_num) (by norm_num) (by norm_num)
      (by norm_num)).2.2.2.1 (by decide) (by decide),
   (c4_weekly_nextRun ⟨1, ⟨8, 30, 0⟩⟩ (4 * nsPerDay + 9 * nsPerHour) (by norm_num) (by norm_num)
      (by norm_num) (by norm_num) (by norm_num) (by norm_num) (by norm_num)
      (by norm_num)).2.1⟩

/-- A loop state in which the quit signal is buffered and the timer has also
elapsed: both select cases are ready at once. -/
def quitAndTimerReadyCtx : LoopCtx :=
  { sched := .ofRecurrent { units := 5, period := 1000000000 },
    quitCh := { allocated := true, ready := true },
    skipCh := { allocated := false, ready := false } }

/-- C6 counterexample: with the cancel signal and the timer event ready
simultaneously, picking the timer case is a legal select outcome and it
fires the callback — the loop does not give the cancel signal precedence
over firing. -/
theorem c6_no_precedence_counterexample :
    selectReady quitAndTimerReadyCtx .quitCase = true ∧
    selectReady quitAndTimerReadyCtx .timerCase = true ∧
    loopIter quitAndTimerReadyCtx 0 .timerCase = some .fireAndContinue ∧
    IterResult.fires .fireAndContinue = true := by
  decide

/-- C6 (amended): once the run loop observes the cancel signal — the select
returns the quit case — the loop exits without invoking the callback, so no
firing occurs after the signal is observed; but when the cancel signal and a
timer or skip event are ready simultaneously, the select chooses among the
ready cases nondeterministically, so the loop may legally fire once more
before observing the cancel signal. -/
theorem c6_quit_observed_stops (ctx : LoopCtx) (now : Int) (r : IterResult)
    (h : loopIter ctx now .quitCase = some r) :
    r = .stop ∧ r.fires = false := by
  unfold loopIter at h
  split at h
  · cases h
    exact ⟨rfl, rfl⟩
  · split at h
    · cases h
      exact ⟨rfl, rfl⟩
    · cases h

/-- C6 witness: observing the buffered quit signal stops the loop without a
firing. -/
theorem c6_quit_observed_stops_witness :
    IterResult.stop = .stop ∧ IterResult.fires .stop = false :=
  c6_quit_observed_stops quitAndTimerReadyCtx 0 .stop (by decide)

/-- C7: evaluation of the code at the failing input.  The source never
assigns the SkipWait field, so every Job built by the fluent interface still
has the nil channel of the zero value when Run starts the loop, Run leaves
it untouched, send attempts on a nil channel never buffer a value (and the
exported receive-only type rejects them at compile time), and therefore the
skip select case is never a legal firing step: the skip-wait handle cannot
force an immediate firing. -/
theorem c7_skipwait_unusable :
    (∀ ts : List Int, (Every ts).skipWait = { allocated := false, ready := false }) ∧
    (∀ (j : Job) (d : Int),
      (j.dayOfWeek d).skipWait = j.skipWait ∧
      j.day.skipWait = j.skipWait ∧
      (∀ j', j.timeOfDay d = some j' → j'.skipWait = j.skipWait)) ∧
    (∀ (j : Job) (ctx : LoopCtx) (now : Int) (k : Nat) (r : IterResult),
      j.skipWait.allocated = false → j.run = some ctx →
      loopIter { ctx with skipCh := sendSignalN k ctx.skipCh } now .skipCase = some r →
      r = .stop) := by
  refine ⟨?_, ?_, ?_⟩
  · intro ts
    match ts with
    | [] => rfl
    | [t] => rfl
    | _ :: _ :: _ => rfl
  · intro j d
    refine ⟨rfl, rfl, fun j' h => ?_⟩
    unfold Job.timeOfDay at h
    split at h
    · cases h
      rfl
    · split at h
      · cases h
        rfl
      · cases h
  · intro j ctx now k r hskip hrun hiter
    have hctx : ctx.skipCh.allocated = false := by
      unfold Job.run at hrun
      split at hrun
      · cases hrun
      · split at hrun
        · cases hrun
          exact hskip
        · cases hrun
    have hsend : ∀ (n : Nat) (c : ChannelState), c.allocated = false →
        (sendSignalN n c).allocated = false := by
      intro n
      induction n with
      | zero => intro c hc; exact hc
      | succ m ih =>
        intro c hc
        unfold sendSignalN sendSignal
        rw [hc]
        simp only [Bool.false_eq_true, if_neg]
        exact ih c hc
    unfold loopIter at hiter
    split at hiter
    · cases hiter
      rfl
    · rw [if_neg] at hiter
      · cases hiter
      · unfold selectReady
        simp [hsend k ctx.skipCh hctx]

/-- C7 witness: a loop over an erroring schedule reached through Run answers
the skip case only with an immediate stop, never a firing. -/
theorem c7_skipwait_unusable_witness :
    (Every [0]).skipWait = { allocated := false, ready := false } ∧
    IterResult.stop = .stop :=
  ⟨c7_skipwait_unusable.1 [0],
   c7_skipwait_unusable.2.2 (Every [0])
     { sched := .ofRecurrent { units := 0, period := 0 },
       quitCh := { allocated := true, ready := false },
       skipCh := { allocated := false, ready := false } }
     0 5 .stop (by decide) (by decide) (by decide)⟩

/-- A segment of nineteen nines: its value exceeds the int64 range. -/
def nineteenNines : List Char := List.replicate 19 '9'

/-- C10 counterexample: the all-digit segment of nineteen nines fails
numeric parsing (Atoi reports a range error), yet parseTime returns the
saturated int64 maximum for the hour position, not zero. -/
theorem c10_range_error_counterexample :
    (atoi nineteenNines).2 = true ∧
    parseTime nineteenNines = (9223372036854775807, 0, 0) ∧
    (9223372036854775807 : Int) ≠ 0 := by
  decide

-- Helper lemmas about the ParseUint digit scan, used for C10.

theorem digitPrefixValAux_le (cs : List Char) : ∀ acc : Nat, acc ≤ digitPrefixValAux cs acc := by
  induction cs with
  | nil => intro acc; exact Nat.le_refl acc
  | cons c rest ih =>
    intro acc
    unfold digitPrefixValAux
    split_ifs with hc
    · exact le_trans (by omega) (ih (acc * 10 + (c.toNat - 48)))
    · exact Nat.le_refl acc

theorem parseUintLoop_value (cs : List Char) :
    ∀ acc : Nat, (∀ c ∈ cs, '0' ≤ c ∧ c ≤ '9') →
      digitPrefixValAux cs acc ≤ maxUint64 →
      parseUintLoop cs acc = .value (digitPrefixValAux cs acc) := by
  induction cs with
  | nil => intro acc _ _; rfl
  | cons c rest ih =>
    intro acc hdig hle
    have hc : '0' ≤ c ∧ c ≤ '9' := hdig c (List.mem_cons_self c rest)
    have hrest : ∀ x ∈ rest, '0' ≤ x ∧ x ≤ '9' := fun x hx => hdig x (List.mem_cons_of_mem c hx)
    have hfold : digitPrefixValAux (c :: rest) acc =
        digitPrefixValAux rest (acc * 10 + (c.toNat - 48)) := by
      simp only [digitPrefixValAux]
      rw [if_pos hc]
    rw [hfold] at hle ⊢
    have hmono := digitPrefixValAux_le rest (acc * 10 + (c.toNat - 48))
    have hleN : acc * 10 + (c.toNat - 48) ≤ 18446744073709551615 := by
      have h := le_trans hmono hle
      unfold maxUint64 at h
      exact h
    unfold parseUintLoop
    rw [if_pos hc]
    have h1 : ¬ uintCutoff ≤ acc := by
      unfold uintCutoff
      omega
    rw [if_neg h1]
    have h2 : ¬ maxUint64 < acc * 10 + (c.toNat - 48) := by
      unfold maxUint64
      omega
    rw [if_neg h2]
    exact ih (acc * 10 + (c.toNat - 48)) hrest hle

theorem parseUintLoop_range (q : List Char) :
    ∀ (tail : List Char) (acc : Nat), (∀ c ∈ q, '0' ≤ c ∧ c ≤ '9') →
      maxUint64 < digitPrefixValAux q acc → acc ≤ maxUint64 →
      parseUintLoop (q ++ tail) acc = .outOfRange := by
  induction q with
  | nil =>
    intro tail acc _ hgt hle
    exact absurd (show maxUint64 < acc from hgt) (Nat.not_lt.mpr hle)
  | cons c q' ih =>
    intro tail acc hdig hgt hle
    have hc : '0' ≤ c ∧ c ≤ '9' := hdig c (List.mem_cons_self c q')
    have hq' : ∀ x ∈ q', '0' ≤ x ∧ x ≤ '9' := fun x hx => hdig x (List.mem_cons_of_mem c hx)
    have hfold : digitPrefixValAux (c :: q') acc =
        digitPrefixValAux q' (acc * 10 + (c.toNat - 48)) := by
      simp only [digitPrefixValAux]
      rw [if_pos hc]
    rw [hfold] at hgt
    show parseUintLoop (c :: (q' ++ tail)) acc = .outOfRange
    unfold parseUintLoop
    rw [if_pos hc]
    by_cases h1 : uintCutoff ≤ acc
    · rw [if_pos h1]
    · rw [if_neg h1]
      by_cases h2 : maxUint64 < acc * 10 + (c.toNat - 48)
      · rw [if_pos h2]
      · rw [if_neg h2]
        exact ih tail (acc * 10 + (c.toNat - 48)) hq' hgt (Nat.not_lt.mp h2)

theorem parseUintLoop_invalid (q : List Char) :
    ∀ (c : Char) (rest : List Char) (acc : Nat), (∀ x ∈ q, '0' ≤ x ∧ x ≤ '9') →
      ¬('0' ≤ c ∧ c ≤ '9') → digitPrefixValAux q acc ≤ maxUint64 →
      parseUintLoop (q ++ c :: rest) acc = .invalidChar := by
  induction q with
  | nil =>
    intro c rest acc _ hc _
    show parseUintLoop (c :: rest) acc = .invalidChar
    unfold parseUintLoop
    rw [if_neg hc]
  | cons x q' ih =>
    intro c rest acc hdig hc hle
    have hx : '0' ≤ x ∧ x ≤ '9' := hdig x (List.mem_cons_self x q')
    have hq' : ∀ y ∈ q', '0' ≤ y ∧ y ≤ '9' := fun y hy => hdig y (List.mem_cons_of_mem x hy)
    have hfold : digitPrefixValAux (x :: q') acc =
        digitPrefixValAux q' (acc * 10 + (x.toNat - 48)) := by
      simp only [digitPrefixValAux]
      rw [if_pos hx]
    rw [hfold] at hle
    have hmono := digitPrefixValAux_le q' (acc * 10 + (x.toNat - 48))
    have hleN : acc * 10 + (x.toNat - 48) ≤ 18446744073709551615 := by
      have h := le_trans hmono hle
      unfold maxUint64 at h
      exact h
    show parseUintLoop (x :: (q' ++ c :: rest)) acc = .invalidChar
    unfold parseUintLoop
    rw [if_pos hx]
    have h1 : ¬ uintCutoff ≤ acc := by
      unfold uintCutoff
      omega
    rw [if_neg h1]
    have h2 : ¬ maxUint64 < acc * 10 + (x.toNat - 48) := by
      unfold maxUint64
      omega
    rw [if_neg h2]
    exact ih c rest (acc * 10 + (x.toNat - 48)) hq' hc hle

theorem digitPrefixValAux_append (q : List Char) :
    ∀ (c : Char) (rest : List Char) (acc : Nat), (∀ x ∈ q, '0' ≤ x ∧ x ≤ '9') →
      ¬('0' ≤ c ∧ c ≤ '9') →
      digitPrefixValAux (q ++ c :: rest) acc = digitPrefixValAux q acc := by
  induction q with
  | nil =>
    intro c rest acc _ hc
    show digitPrefixValAux (c :: rest) acc = digitPrefixValAux [] acc
    unfold digitPrefixValAux
    rw [if_neg hc]
  | cons x q' ih =>
    intro c rest acc hd hc
    have hx : '0' ≤ x ∧ x ≤ '9' := hd x (List.mem_cons_self x q')
    show digitPrefixValAux (x :: (q' ++ c :: rest)) acc = digitPrefixValAux (x :: q') acc
    unfold digitPrefixValAux
    rw [if_pos hx, if_pos hx]
    exact ih c rest (acc * 10 + (x.toNat - 48)) (fun y hy => hd y (List.mem_cons_of_mem x hy)) hc

theorem digitsValAux_some (cs : List Char) :
    ∀ (acc n : Nat), digitsValAux cs acc = some n →
      (∀ c ∈ cs, '0' ≤ c ∧ c ≤ '9') ∧ n = digitPrefixValAux cs acc := by
  induction cs with
  | nil =>
    intro acc n h
    refine ⟨fun c hc => absurd hc (List.not_mem_nil c), ?_⟩
    injection h with h2
    exact h2.symm
  | cons c rest ih =>
    intro acc n h
    unfold digitsValAux at h
    split_ifs at h with hc
    · obtain ⟨hall, hval⟩ := ih (acc * 10 + (c.toNat - 48)) n h
      refine ⟨?_, ?_⟩
      · intro x hx
        rcases List.mem_cons.mp hx with hcx | hmem
        · rw [hcx]
          exact hc
        · exact hall x hmem
      · unfold digitPrefixValAux
        rw [if_pos hc]
        exact hval

theorem digitsValAux_all (cs : List Char) :
    ∀ acc : Nat, (∀ c ∈ cs, '0' ≤ c ∧ c ≤ '9') →
      digitsValAux cs acc = some (digitPrefixValAux cs acc) := by
  induction cs with
  | nil => intro acc _; rfl
  | cons c rest ih =>
    intro acc hall
    have hc : '0' ≤ c ∧ c ≤ '9' := hall c (List.mem_cons_self c rest)
    unfold digitsValAux digitPrefixValAux
    rw [if_pos hc, if_pos hc]
    exact ih (acc * 10 + (c.toNat - 48)) (fun x hx => hall x (List.mem_cons_of_mem c hx))

theorem digits_or_decomp (s : List Char) :
    (∀ c ∈ s, '0' ≤ c ∧ c ≤ '9') ∨
      ∃ q c rest, s = q ++ c :: rest ∧ (∀ x ∈ q, '0' ≤ x ∧ x ≤ '9') ∧
        ¬('0' ≤ c ∧ c ≤ '9') := by
  induction s with
  | nil => exact Or.inl (fun c hc => absurd hc (List.not_mem_nil c))
  | cons c rest ih =>
    by_cases hc : '0' ≤ c ∧ c ≤ '9'
    · rcases ih with hall | ⟨q, x, r, heq, hq, hx⟩
      · refine Or.inl (fun y hy => ?_)
        rcases List.mem_cons.mp hy with h | h
        · rw [h]
          exact hc
        · exact hall y h
      · refine Or.inr ⟨c :: q, x, r, by rw [heq, List.cons_append], ?_, hx⟩
        intro y hy
        rcases List.mem_cons.mp hy with h | h
        · rw [h]
          exact hc
        · exact hq y h
    · exact Or.inr ⟨[], c, rest, rfl, fun y hy => absurd hy (List.not_mem_nil y), hc⟩

theorem digitsVal_cons (c : Char) (t : List Char) :
    digitsVal (c :: t) = digitsValAux (c :: t) 0 := rfl

theorem parseUint_cons (c : Char) (t : List Char) :
    parseUint (c :: t) = parseUintLoop (c :: t) 0 := by
  unfold parseUint
  rw [if_neg (List.cons_ne_nil c t)]

/-- A malformed digit string: ParseUint reports a syntax error when the scan
reaches the first invalid character, but a range error when the leading digit
run overflows the unsigned range first. -/
theorem parseUint_digitsVal_none (s : List Char) (hdv : digitsVal s = none) :
    (digitPrefixVal s ≤ maxUint64 → parseUint s = .invalidChar) ∧
    (maxUint64 < digitPrefixVal s → parseUint s = .outOfRange) := by
  unfold digitPrefixVal
  cases s with
  | nil =>
    constructor
    · intro _
      rfl
    · intro hgt
      exfalso
      have h0 : maxUint64 < 0 := hgt
      unfold maxUint64 at h0
      omega
  | cons c t =>
    rcases digits_or_decomp (c :: t) with hall | ⟨q, x, r, heq, hq, hx⟩
    · rw [digitsVal_cons, digitsValAux_all (c :: t) 0 hall] at hdv
      cases hdv
    · have hne : parseUint (q ++ x :: r) = parseUintLoop (q ++ x :: r) 0 := by
        unfold parseUint
        rw [if_neg (by simp)]
      rw [heq, digitPrefixValAux_append q x r 0 hq hx, hne]
      constructor
      · intro hle
        exact parseUintLoop_invalid q x r 0 hq hx hle
      · intro hgt
        exact parseUintLoop_range q (x :: r) 0 hq hgt (by unfold maxUint64; omega)

/-- A well-formed digit string: ParseUint completes with the value when it is
representable and reports a range error otherwise. -/
theorem parseUint_digitsVal_some (s : List Char) (n : Nat) (hn : digitsVal s = some n) :
    (n ≤ maxUint64 → parseUint s = .value n) ∧
    (maxUint64 < n → parseUint s = .outOfRange) := by
  cases s with
  | nil => cases hn
  | cons c t =>
    rw [digitsVal_cons] at hn
    obtain ⟨hall, hval⟩ := digitsValAux_some (c :: t) 0 n hn
    rw [parseUint_cons c t]
    constructor
    · intro hle
      rw [hval]
      exact parseUintLoop_value (c :: t) 0 hall (by rw [← hval]; exact hle)
    · intro hgt
      have hloop := parseUintLoop_range (c :: t) [] 0 hall (by rw [← hval]; exact hgt)
        (by unfold maxUint64; omega)
      rw [List.append_nil] at hloop
      exact hloop

/-- C10 (amended): parseTime splits its input on colons and fills the
(hour, min, sec) positions from one, two or three segments via Atoi with the
error discarded, absent positions staying zero and more than three segments
leaving all three zero, and it never surfaces an error; a well-formed
optionally-signed decimal segment contributes exactly its numeric value when
within the int64 range and the saturated int64 bound otherwise; a malformed
segment contributes zero when the digit scan reaches the offending character
first (its longest leading digit run is at most 2^64 - 1), but when that
digit run already exceeds 2^64 - 1 the scan hits Atoi's range cutoff before
the invalid character and the segment contributes the saturated int64 bound
for its sign — not zero. -/
theorem c10_parseTime_amended :
    (∀ str : List Char, parseTime str =
      match splitOnColon str with
      | [c0] => ((atoi c0).1, 0, 0)
      | [c0, c1] => ((atoi c0).1, (atoi c1).1, 0)
      | [c0, c1, c2] => ((atoi c0).1, (atoi c1).1, (atoi c2).1)
      | _ => (0, 0, 0)) ∧
    (∀ seg : List Char, decimalValue seg = none →
      digitPrefixVal (stripSign seg).2 ≤ maxUint64 → atoi seg = (0, true)) ∧
    (∀ seg : List Char, decimalValue seg = none →
      maxUint64 < digitPrefixVal (stripSign seg).2 →
      atoi seg = (if (stripSign seg).1 then int64Min else int64Max, true)) ∧
    (∀ (seg : List Char) (v : Int), decimalValue seg = some v →
      int64Min ≤ v → v ≤ int64Max → atoi seg = (v, false)) ∧
    (∀ (seg : List Char) (v : Int), decimalValue seg = some v → int64Max < v →
      atoi seg = (int64Max, true)) ∧
    (∀ (seg : List Char) (v : Int), decimalValue seg = some v → v < int64Min →
      atoi seg = (int64Min, true)) := by
  refine ⟨fun str => rfl, ?_, ?_, ?_, ?_, ?_⟩
  · intro seg h hle
    unfold decimalValue at h
    unfold atoi
    cases hstrip : stripSign seg with
    | mk neg s =>
      rw [hstrip] at h hle
      cases neg
      · have hdv : Option.map (fun n : Nat => (n : Int)) (digitsVal s) = none := h
        simp only [Option.map_eq_none'] at hdv
        have hle' : digitPrefixVal s ≤ maxUint64 := hle
        show signResult false (parseUint s) = (0, true)
        rw [(parseUint_digitsVal_none s hdv).1 hle']
        rfl
      · have hdv : Option.map (fun n : Nat => -(n : Int)) (digitsVal s) = none := h
        simp only [Option.map_eq_none'] at hdv
        have hle' : digitPrefixVal s ≤ maxUint64 := hle
        show signResult true (parseUint s) = (0, true)
        rw [(parseUint_digitsVal_none s hdv).1 hle']
        rfl
  · intro seg h hgt
    unfold decimalValue at h
    unfold atoi
    cases hstrip : stripSign seg with
    | mk neg s =>
      rw [hstrip] at h hgt
      cases neg
      · have hdv : Option.map (fun n : Nat => (n : Int)) (digitsVal s) = none := h
        simp only [Option.map_eq_none'] at hdv
        have hgt' : maxUint64 < digitPrefixVal s := hgt
        show signResult false (parseUint s) = (int64Max, true)
        rw [(parseUint_digitsVal_none s hdv).2 hgt']
        rfl
      · have hdv : Option.map (fun n : Nat => -(n : Int)) (digitsVal s) = none := h
        simp only [Option.map_eq_none'] at hdv
        have hgt' : maxUint64 < digitPrefixVal s := hgt
        show signResult true (parseUint s) = (int64Min, true)
        rw [(parseUint_digitsVal_none s hdv).2 hgt']
        rfl
  · intro seg v h hlo hhi
    unfold decimalValue at h
    unfold atoi
    cases hstrip : stripSign seg with
    | mk neg s =>
      rw [hstrip] at h
      cases neg
      · have h' : Option.map (fun n : Nat => (n : Int)) (digitsVal s) = some v := h
        simp only [Option.map_eq_some'] at h'
        obtain ⟨n, hn, hv⟩ := h'
        have hn64 : n ≤ maxUint64 := by
          unfold maxUint64
          unfold int64Max at hhi
          omega
        show signResult false (parseUint s) = (v, false)
        rw [(parseUint_digitsVal_some s n hn).1 hn64]
        show (if 9223372036854775807 < n then (int64Max, true) else ((n : Int), false)) = (v, false)
        rw [if_neg (by unfold int64Max at hhi; omega)]
        rw [hv]
      · have h' : Option.map (fun n : Nat => -(n : Int)) (digitsVal s) = some v := h
        simp only [Option.map_eq_some'] at h'
        obtain ⟨n, hn, hv⟩ := h'
        have hn64 : n ≤ maxUint64 := by
          unfold maxUint64
          unfold int64Min at hlo
          omega
        show signResult true (parseUint s) = (v, false)
        rw [(parseUint_digitsVal_some s n hn).1 hn64]
        show (if 9223372036854775808 < n then (int64Min, true) else (-(n : Int), false)) = (v, false)
        rw [if_neg (by unfold int64Min at hlo; omega)]
        rw [hv]
  · intro seg v h hhi
    unfold decimalValue at h
    unfold atoi
    cases hstrip : stripSign seg with
    | mk neg s =>
      rw [hstrip] at h
      cases neg
      · have h' : Option.map (fun n : Nat => (n : Int)) (digitsVal s) = some v := h
        simp only [Option.map_eq_some'] at h'
        obtain ⟨n, hn, hv⟩ := h'
        show signResult false (parseUint s) = (int64Max, true)
        by_cases hbig : maxUint64 < n
        · rw [(parseUint_digitsVal_some s n hn).2 hbig]
          rfl
        · rw [(parseUint_digitsVal_some s n hn).1 (Nat.not_lt.mp hbig)]
          show (if 9223372036854775807 < n then (int64Max, true) else ((n : Int), false)) =
            (int64Max, true)
          rw [if_pos (by unfold int64Max at hhi; omega)]
      · have h' : Option.map (fun n : Nat => -(n : Int)) (digitsVal s) = some v := h
        simp only [Option.map_eq_some'] at h'
        obtain ⟨n, hn, hv⟩ := h'
        exfalso
        unfold int64Max at hhi
        omega
  · intro seg v h hlo
    unfold decimalValue at h
    unfold atoi
    cases hstrip : stripSign seg with
    | mk neg s =>
      rw [hstrip] at h
      cases neg
      · have h' : Option.map (fun n : Nat => (n : Int)) (digitsVal s) = some v := h
        simp only [Option.map_eq_some'] at h'
        obtain ⟨n, hn, hv⟩ := h'
        exfalso
        unfold int64Min at hlo
        omega
      · have h' : Option.map (fun n : Nat => -(n : Int)) (digitsVal s) = some v := h
        simp only [Option.map_eq_some'] at h'
        obtain ⟨n, hn, hv⟩ := h'
        show signResult true (parseUint s) = (int64Min, true)
        by_cases hbig : maxUint64 < n
        · rw [(parseUint_digitsVal_some s n hn).2 hbig]
          rfl
        · rw [(parseUint_digitsVal_some s n hn).1 (Nat.not_lt.mp hbig)]
          show (if 9223372036854775808 < n then (int64Min, true) else (-(n : Int), false)) =
            (int64Min, true)
          rw [if_pos (by unfold int64Min at hlo; omega)]

/-- A malformed segment whose leading digit run overflows before the invalid
character is reached: twenty nines followed by a letter. -/
def twentyNinesX : List Char := List.replicate 20 '9' ++ ['x']

/-- C10 witness: a plain digit segment yields its value without error, a
non-numeric segment yields zero with its error discarded, a malformed
segment whose overflowing digit run hits the range cutoff before the invalid
character yields the saturated bound, and a two-segment string fills hour
and minute positionally. -/
theorem c10_parseTime_amended_witness :
    atoi ['8'] = (8, false) ∧
    atoi ['x'] = (0, true) ∧
    atoi twentyNinesX = (int64Max, true) ∧
    parseTime ['8', ':', '3', '0'] = ((atoi ['8']).1, (atoi ['3', '0']).1, 0) :=
  ⟨c10_parseTime_amended.2.2.2.1 ['8'] 8 (by decide) (by decide) (by decide),
   c10_parseTime_amended.2.1 ['x'] (by decide) (by decide),
   Eq.trans (c10_parseTime_amended.2.2.1 twentyNinesX (by decide) (by decide)) (by decide),
   c10_parseTime_amended.1 ['8', ':', '3', '0']⟩
